import Mathlib

/-!
Verification of the `ofcli` OpenID Connect Federation explorer.

This file shallowly embeds the core of the repository:
  * `src/ofcli/trustchain.py` — `TrustTree.resolve`, `TrustTree.chains`,
    `TrustChainResolver.chains`, `TrustChain.__init__` (expiration fold);
  * `src/ofcli/core.py` — `get_trustchains`, `resolve_entity`;
  * `src/ofcli/fedtree.py` — `FedTree.discover`;
  * `src/ofcli/utils.py` — `URL` equality, `remove_trailing_slashes`,
    `well_known_url`;
  * the metadata policy engine (`ofcli/policy.py`), which is imported by the
    code but absent from the sources, modelled from the specification.

The network is modelled as a finite federation world: an association list
from entity id to its published entity configuration, and an association
list from (issuer, subject) to the subordinate statement served by the
issuer's federation fetch endpoint.  A lookup miss models a failing fetch
(in the code: a raised exception).  Recursion over the federation graph is
fuel-indexed; a `none` result means the fuel ran out, i.e. the code has not
terminated within that recursion depth.
-/

deriving instance DecidableEq for Except

namespace Ofcli

/-- The claims of an entity statement that the resolver consumes
(`iss`, `sub`, `exp`, `authority_hints`); `authority_hints` absent on the
wire is read by the code as `[]` (`get("authority_hints", [])`). -/
structure EntityStatement where
  iss : String
  sub : String
  exp : Int
  authority_hints : List String
  deriving Repr, DecidableEq

/-- A federation world: `conf u` is the entity configuration published at
`u/.well-known/openid-federation` (`none` = the fetch raises), and
`subs (a, s)` is the subordinate statement returned by `a`'s federation
fetch endpoint for subject `s` (`none` = the fetch raises). -/
structure FedWorld where
  conf : List (String × EntityStatement)
  subs : List ((String × String) × EntityStatement)
  deriving Repr

/-- A node of the trust tree built by `TrustTree.resolve`: the entity's own
configuration, the subordinate statement issued about the parent node's
subject (absent on the root), and the resolved authority children. -/
inductive TrustTree where
  | node (entity : EntityStatement) (subordinate : Option EntityStatement)
      (authorities : List TrustTree)

/-- The result of one call of `TrustTree.resolve`: the returned validity
flag, the `self.authorities` the call leaves behind, and the shared `seen`
list.  `.error ()` models an exception escaping the call. -/
abbrev ResolveResult := Except Unit (Bool × List TrustTree × List String)

/-- The `for authority in self.entity.get("authority_hints", [])` loop of
`TrustTree.resolve` (trustchain.py lines 143-167), carrying the mutable
`valid` flag, the `self.authorities` list and the shared `seen` list;
`recur` is the recursive `tt.resolve(...)` call one level deeper.  A
missing authority configuration raises (line 147 is outside the `try`,
so the exception escapes); a missing subordinate statement hits the
`except` clause on line 157, which does `return False`, keeping the
authorities appended so far and abandoning the remaining hints. -/
def resolveGo (w : FedWorld) (anchors : List String)
    (recur : EntityStatement → List String → Option ResolveResult)
    (sub : String) : List String → Bool → List TrustTree → List String →
    Option ResolveResult
  | [], valid, auths, seen => some (.ok (valid, auths, seen))
  | a :: rest, valid, auths, seen =>
    match w.conf.lookup a with
    | none => some (.error ())
    | some astmt =>
      match w.subs.lookup (a, sub) with
      | none => some (.ok (false, auths, seen))
      | some sstmt =>
        match recur astmt seen with
        | none => none
        | some (.error e) => some (.error e)
        | some (.ok (cvalid, cauths, seen2)) =>
          if cvalid then
            resolveGo w anchors recur sub rest true
              (auths ++ [TrustTree.node astmt (some sstmt) cauths]) seen2
          else
            resolveGo w anchors recur sub rest valid auths seen2

/-- `TrustTree.resolve` (trustchain.py lines 107-167).  Returns
`(valid, authorities, seen)`; `none` models exceeding the recursion
depth `fuel` (the code has no loop prevention that is ever consulted, so
it can recurse forever). -/
def resolveF (w : FedWorld) (anchors : List String) :
    Nat → EntityStatement → List String → Option ResolveResult
  | 0, _, _ => none
  | fuel + 1, entity, seen =>
    let seen1 := seen ++ [entity.sub]
    if entity.sub ∈ anchors then some (.ok (true, [], seen1))
    else if entity.authority_hints.isEmpty then
      if anchors.isEmpty then some (.ok (true, [], seen1))
      else some (.ok (false, [], seen1))
    else
      resolveGo w anchors (fun a s => resolveF w anchors fuel a s)
        entity.sub entity.authority_hints false [] seen1

mutual

/-- `TrustTree.chains` (trustchain.py lines 173-191): serializes the trust
chains out of a resolved trust tree.  Note the `chains = [chain] + chains`
prepend on line 190. -/
def TrustTree.chains : TrustTree → List (List EntityStatement)
  | .node e s auths =>
    if auths.isEmpty then
      match s with
      | none => []
      | some st => [[st, e]]
    else
      TrustTree.chainsGo s auths []

/-- The `for authority in self.authorities` loop of `TrustTree.chains`,
accumulating the local `chains` variable. -/
def TrustTree.chainsGo :
    Option EntityStatement → List TrustTree → List (List EntityStatement) →
    List (List EntityStatement)
  | _, [], acc => acc
  | s, a :: rest, acc =>
    TrustTree.chainsGo s rest
      (match s with
       | none => acc ++ a.chains
       | some st => a.chains.foldl (fun acc2 c => (st :: c) :: acc2) acc)

end

/-- `TrustChainResolver.resolve` followed by `TrustChainResolver.chains`
(trustchain.py lines 210-217 and 235-242), as called by
`core.get_trustchains`: fetch the starting entity's configuration (a
failure there raises, uncaught), resolve the tree ignoring the returned
validity flag, and prepend the starting configuration to every chain of
the tree. -/
def resolverChainsF (w : FedWorld) (anchors : List String) (start : String)
    (fuel : Nat) : Option (Except Unit (List (List EntityStatement))) :=
  match w.conf.lookup start with
  | none => some (.error ())
  | some st =>
    match resolveF w anchors fuel st [] with
    | none => none
    | some (.error e) => some (.error e)
    | some (.ok (_, auths, _)) =>
      some (.ok (((TrustTree.node st none auths).chains).map (st :: ·)))

/-- The expiration computed by `TrustChain.__init__` (trustchain.py lines
31-35): `reduce(lambda x, y: x if x and x < y.get("exp", 0) else
y.get("exp", 0), self._chain, 0)`. -/
def chainExp (chain : List EntityStatement) : Int :=
  chain.foldl (fun x y => if x ≠ 0 ∧ x < y.exp then x else y.exp) 0

/-- Adjacent statements of a chain are linked: `sᵢ.iss == sᵢ₊₁.sub`. -/
def Chained : List EntityStatement → Prop
  | [] => True
  | [_] => True
  | a :: b :: t => a.iss = b.sub ∧ Chained (b :: t)

/-- The first statement of the chain is self-signed (`s₀.iss == s₀.sub`). -/
def HeadSelfSigned : List EntityStatement → Prop
  | [] => False
  | s :: _ => s.iss = s.sub

/-- The last statement of the chain is self-signed and, when a non-empty
trust-anchor set was given, its subject is one of the anchors. -/
def LastOk (anchors : List String) : List EntityStatement → Prop
  | [] => False
  | [s] => s.iss = s.sub ∧ (anchors ≠ [] → s.sub ∈ anchors)
  | _ :: s :: t => LastOk anchors (s :: t)

/-- The Trust Chain invariant of the specification (§3 and §8.1). -/
def ChainInv (anchors : List String) (c : List EntityStatement) : Prop :=
  HeadSelfSigned c ∧ Chained c ∧ LastOk anchors c

/-- A statement at which `TrustTree.resolve` stops successfully: its
subject is a trust anchor, or no anchors were given and it has no
authority hints. -/
def terminal (anchors : List String) (e : EntityStatement) : Prop :=
  e.sub ∈ anchors ∨ (anchors = [] ∧ e.authority_hints = [])

instance (anchors : List String) (e : EntityStatement) :
    Decidable (terminal anchors e) := by
  unfold terminal; infer_instance

/-- A well-formed federation world: the configuration served at `u` is
self-signed with subject `u` (spec §3: a self-signed entity configuration
has `iss == sub`), and the subordinate statement served by `a` for
subject `s` has `iss = a` and `sub = s` (spec §3, subordinate
statements). -/
def HonestWorld (w : FedWorld) : Prop :=
  (∀ p ∈ w.conf, p.2.iss = p.1 ∧ p.2.sub = p.1) ∧
  (∀ q ∈ w.subs, q.2.iss = q.1.1 ∧ q.2.sub = q.1.2)

instance (w : FedWorld) : Decidable (HonestWorld w) := by
  unfold HonestWorld; infer_instance

/-- The shape of every subtree that `TrustTree.resolve` attaches under a
node with subject `psub`: its entity statement and subordinate statement
were fetched from the world, a childless node is terminal, and every
child has the same shape one level up. -/
inductive GoodTree (w : FedWorld) (anchors : List String) :
    String → TrustTree → Prop
  | mk (psub a : String) (astmt sstmt : EntityStatement)
      (cauths : List TrustTree)
      (hconf : w.conf.lookup a = some astmt)
      (hsub : w.subs.lookup (a, psub) = some sstmt)
      (hterm : cauths = [] → terminal anchors astmt)
      (hch : ∀ t ∈ cauths, GoodTree w anchors astmt.sub t) :
      GoodTree w anchors psub (TrustTree.node astmt (some sstmt) cauths)

/-! ### Concrete federation worlds used as witnesses and counterexamples -/

/-- Scenario S1: `RP → IA → TA`, anchor `TA`. -/
def rpCfg : EntityStatement :=
  ⟨"https://rp.example", "https://rp.example", 100, ["https://ia.example"]⟩
def iaCfg : EntityStatement :=
  ⟨"https://ia.example", "https://ia.example", 90, ["https://ta.example"]⟩
def taCfg : EntityStatement :=
  ⟨"https://ta.example", "https://ta.example", 80, []⟩
def iaRp : EntityStatement :=
  ⟨"https://ia.example", "https://rp.example", 70, []⟩
def taIa : EntityStatement :=
  ⟨"https://ta.example", "https://ia.example", 60, []⟩
def wS1 : FedWorld :=
  ⟨[("https://rp.example", rpCfg), ("https://ia.example", iaCfg),
    ("https://ta.example", taCfg)],
   [(("https://ia.example", "https://rp.example"), iaRp),
    (("https://ta.example", "https://ia.example"), taIa)]⟩

/-- Scenario S3: a two-node authority-hint cycle `A ↔ B`, with all
configurations and subordinate statements published, and an anchor that
is not on the cycle. -/
def aCyc : EntityStatement :=
  ⟨"https://a.example", "https://a.example", 100, ["https://b.example"]⟩
def bCyc : EntityStatement :=
  ⟨"https://b.example", "https://b.example", 100, ["https://a.example"]⟩
def wCycle : FedWorld :=
  ⟨[("https://a.example", aCyc), ("https://b.example", bCyc)],
   [(("https://a.example", "https://b.example"),
     ⟨"https://a.example", "https://b.example", 50, []⟩),
    (("https://b.example", "https://a.example"),
     ⟨"https://b.example", "https://a.example", 50, []⟩)]⟩

/-- A world for C3: the starting entity `S` has hints `[B, G]`; `B`'s
configuration is published but its fetch endpoint serves no statement
about `S` (the fetch raises); `G` is a reachable anchor that issues a
statement about `S`. -/
def sBG : EntityStatement :=
  ⟨"https://s.example", "https://s.example", 100,
   ["https://b.example", "https://g.example"]⟩
def bCfg : EntityStatement :=
  ⟨"https://b.example", "https://b.example", 90, []⟩
def gCfg : EntityStatement :=
  ⟨"https://g.example", "https://g.example", 80, []⟩
def gS : EntityStatement :=
  ⟨"https://g.example", "https://s.example", 70, []⟩
def wBranchFail : FedWorld :=
  ⟨[("https://s.example", sBG), ("https://b.example", bCfg),
    ("https://g.example", gCfg)],
   [(("https://g.example", "https://s.example"), gS)]⟩

/-- The same world with the failing branch `B` removed from `S`'s
authority hints: only the working branch `G` remains. -/
def sG : EntityStatement :=
  ⟨"https://s.example", "https://s.example", 100, ["https://g.example"]⟩
def wBranchOk : FedWorld :=
  ⟨[("https://s.example", sG), ("https://g.example", gCfg)],
   [(("https://g.example", "https://s.example"), gS)]⟩

/-- A world for C4: `S` has hints `[A1, TA]`; `A1`'s superior is `TA`;
`TA` is the anchor and issues statements about both `A1` and `S`, so two
chains exist — one of length 4 through `A1` and one of length 3 directly
to `TA`. -/
def sA1TA : EntityStatement :=
  ⟨"https://s.example", "https://s.example", 100,
   ["https://a1.example", "https://ta.example"]⟩
def a1Cfg : EntityStatement :=
  ⟨"https://a1.example", "https://a1.example", 90, ["https://ta.example"]⟩
def a1S : EntityStatement :=
  ⟨"https://a1.example", "https://s.example", 70, []⟩
def taA1 : EntityStatement :=
  ⟨"https://ta.example", "https://a1.example", 60, []⟩
def taS : EntityStatement :=
  ⟨"https://ta.example", "https://s.example", 50, []⟩
def wTwoChains : FedWorld :=
  ⟨[("https://s.example", sA1TA), ("https://a1.example", a1Cfg),
    ("https://ta.example", taCfg)],
   [(("https://a1.example", "https://s.example"), a1S),
    (("https://ta.example", "https://a1.example"), taA1),
    (("https://ta.example", "https://s.example"), taS)]⟩

/-- A world for C9: `S → I`, and `I` lists authority hints
`[X, X, Y]` (a duplicated hint, then `Y`), with anchors `X` and `Y`. -/
def sI : EntityStatement :=
  ⟨"https://s.example", "https://s.example", 100, ["https://i.example"]⟩
def iCfg : EntityStatement :=
  ⟨"https://i.example", "https://i.example", 90,
   ["https://x.example", "https://x.example", "https://y.example"]⟩
def xCfg : EntityStatement :=
  ⟨"https://x.example", "https://x.example", 80, []⟩
def yCfg : EntityStatement :=
  ⟨"https://y.example", "https://y.example", 80, []⟩
def iS : EntityStatement :=
  ⟨"https://i.example", "https://s.example", 70, []⟩
def xI : EntityStatement :=
  ⟨"https://x.example", "https://i.example", 60, []⟩
def yI : EntityStatement :=
  ⟨"https://y.example", "https://i.example", 60, []⟩
def wDupHints : FedWorld :=
  ⟨[("https://s.example", sI), ("https://i.example", iCfg),
    ("https://x.example", xCfg), ("https://y.example", yCfg)],
   [(("https://i.example", "https://s.example"), iS),
    (("https://x.example", "https://i.example"), xI),
    (("https://y.example", "https://i.example"), yI)]⟩

/-- `core.resolve_entity` (core.py lines 173-193), restricted to its chain
selection: it resolves with the single trust anchor `ta` and applies the
policy engine to `chains[0]` — the first chain in the resolver's order —
not to the shortest one (`# TODO: select the shortest chain if more than
one`).  `none` inside the `Except` models the `InternalException` raised
when no chain was found. -/
def resolveEntityChainF (w : FedWorld) (ta : String) (start : String)
    (fuel : Nat) : Option (Except Unit (Option (List EntityStatement))) :=
  (resolverChainsF w [ta] start fuel).map (Except.map List.head?)

/-! ### The metadata policy engine

`ofcli/policy.py` (imported at trustchain.py line 19 as
`from ofcli.policy import gather_policies, apply_policy`) is not among the
sources; its `apply_policy` is modelled from the specification (§4.5,
**Apply**). -/

/-- A metadata parameter value: a string, a list of strings, or a
boolean. -/
inductive MVal where
  | str (s : String)
  | list (l : List String)
  | bool (b : Bool)
  deriving Repr, DecidableEq

/-- A combined policy for one parameter: the operators
`subset_of, one_of, superset_of, add, value, default, essential`
(spec §3, Metadata Policy). -/
structure PolicyRule where
  subset_of : Option (List String) := none
  one_of : Option (List String) := none
  superset_of : Option (List String) := none
  add : Option (List String) := none
  value : Option MVal := none
  default : Option MVal := none
  essential : Option Bool := none
  deriving Repr, DecidableEq

/-- Policy application failure (`PolicyViolation` in the spec's
taxonomy). -/
inductive PolicyError where
  | violation
  deriving Repr, DecidableEq

/-- Sets parameter `p` to `v` in a metadata block, replacing an existing
entry in place or appending a new one. -/
def setParam (m : List (String × MVal)) (p : String) (v : MVal) :
    List (String × MVal) :=
  if (m.lookup p).isSome then
    m.map (fun q => if q.1 = p then (p, v) else q)
  else m ++ [(p, v)]

/-- Extends a list with new elements, deduplicating while preserving
order (spec §4.5 Apply, step 3). -/
def addElems (l : List String) : List String → List String
  | [] => l
  | x :: rest => addElems (if x ∈ l then l else l ++ [x]) rest

/-- The list of strings a parameter value contributes its elements as,
for the `add`/`subset_of`/`superset_of` checks: a list is itself, a
string is a singleton, a boolean has no elements. -/
def MVal.elems : MVal → List String
  | .list l => l
  | .str s => [s]
  | .bool _ => []

/-- Spec §4.5 **Apply**, steps 1-2: `value` overrides the parameter even
when absent; otherwise `default` fills an absent parameter. -/
def applySteps12 (m : List (String × MVal)) (p : String) (r : PolicyRule) :
    List (String × MVal) :=
  match r.value with
  | some v => setParam m p v
  | none =>
    match m.lookup p, r.default with
    | none, some d => setParam m p d
    | _, _ => m

/-- Spec §4.5 **Apply**, step 3: `add` extends the parameter's list value
with the new elements, deduplicating while preserving order (an absent
parameter contributes no elements). -/
def applyStep3 (m1 : List (String × MVal)) (p : String) (r : PolicyRule) :
    List (String × MVal) :=
  match r.add with
  | none => m1
  | some adds =>
    let cur := match m1.lookup p with
      | some v => v.elems
      | none => []
    setParam m1 p (.list (addElems cur adds))

/-- Spec §4.5 **Apply**, steps 4-6: enforce `subset_of` (every element of
the value lies in the set), `one_of` (the value is a member of the set),
`superset_of` (every required element is present) and `essential = true`
(the parameter must be present). -/
def applyChecks (m2 : List (String × MVal)) (p : String) (r : PolicyRule) :
    Bool :=
  (match r.subset_of, m2.lookup p with
   | some s, some v => v.elems.all (fun x => x ∈ s)
   | some _, none => true
   | none, _ => true) &&
  (match r.one_of, m2.lookup p with
   | some s, some (.str v) => v ∈ s
   | some _, some _ => false
   | some _, none => true
   | none, _ => true) &&
  (match r.superset_of, m2.lookup p with
   | some s, some v => s.all (fun x => x ∈ v.elems)
   | some s, none => s.isEmpty
   | none, _ => true) &&
  (match r.essential with
   | some true => (m2.lookup p).isSome
   | _ => true)

/-- Modelled from the spec: `apply_policy` of the missing `ofcli/policy.py`
applied to a single parameter `p` with combined rule `r` (spec §4.5
**Apply**, steps 1-6); a failed check is a `PolicyViolation`. -/
def applyParam (m : List (String × MVal)) (p : String) (r : PolicyRule) :
    Except PolicyError (List (String × MVal)) :=
  if applyChecks (applyStep3 (applySteps12 m p r) p r) p r then
    .ok (applyStep3 (applySteps12 m p r) p r)
  else .error .violation

/-- Modelled from the spec: `apply_policy(M, P)` of the missing
`ofcli/policy.py` — fold `applyParam` over the parameters of the combined
policy (spec §4.5 **Apply**: "for each parameter p"). -/
def apply_policy (m : List (String × MVal)) :
    List (String × PolicyRule) → Except PolicyError (List (String × MVal))
  | [] => .ok m
  | (p, r) :: rest =>
    match applyParam m p r with
    | .error e => .error e
    | .ok m2 => apply_policy m2 rest

/-! ### The federation subtree discoverer (`fedtree.py`) -/

/-- What `FedTree.discover` reads from an entity configuration: the `sub`
claim and whether a `metadata` claim is present (`discover` raises when it
is absent, fedtree.py lines 29-30). -/
structure FedEntity where
  sub : String
  hasMetadata : Bool
  deriving Repr, DecidableEq

/-- The world a subtree discovery runs against: entity configurations by
entity id, and the response of each entity's federation list endpoint
(`none` = no list endpoint / the listing fails, which the outer `except`
treats as a leaf). -/
structure SubtreeWorld where
  conf : List (String × FedEntity)
  lists : List (String × List String)
  deriving Repr

/-- A discovered federation subtree node (`FedTree`). -/
inductive FedTree where
  | node (entity : FedEntity) (subordinates : List FedTree)

/-- The `for sub in subordinates` loop of `FedTree.discover` (fedtree.py
lines 33-49): a failing configuration fetch skips the entry with a
warning; a fetched configuration whose `sub` equals the current node's
`sub` raises `"Entity is listed as its own subordinate."`, which the same
`except` catches, skipping the entry; a failure inside the recursive
discovery is also caught there and skips the entry.  `recur` is the
recursive `subordinate.discover(...)` call; `none` propagates fuel
exhaustion. -/
def discoverGo (w : SubtreeWorld)
    (recur : FedEntity → Option (Except Unit FedTree)) (selfSub : String) :
    List String → List FedTree → Option (List FedTree)
  | [], acc => some acc
  | sid :: rest, acc =>
    match w.conf.lookup sid with
    | none => discoverGo w recur selfSub rest acc
    | some c =>
      if c.sub = selfSub then discoverGo w recur selfSub rest acc
      else
        match recur c with
        | none => none
        | some (.error _) => discoverGo w recur selfSub rest acc
        | some (.ok t) => discoverGo w recur selfSub rest (acc ++ [t])

/-- `FedTree.discover` (fedtree.py lines 27-51): raise when the entity has
no `metadata`; treat a failing listing as a leaf; otherwise process the
listed subordinates in order.  `fuel` bounds the recursion depth (the code
has no cycle protection besides the self-subordinate check). -/
def discoverF (w : SubtreeWorld) :
    Nat → FedEntity → Option (Except Unit FedTree)
  | 0, _ => none
  | fuel + 1, e =>
    if e.hasMetadata = false then some (.error ())
    else
      match w.lists.lookup e.sub with
      | none => some (.ok (.node e []))
      | some subs =>
        match discoverGo w (fun c => discoverF w fuel c) e.sub subs [] with
        | none => none
        | some ts => some (.ok (.node e ts))

/-- The world `w` with the federation list endpoint of `n` answering `l`
instead (the shadowing entry is consulted first by `lookup`). -/
def setList (w : SubtreeWorld) (n : String) (l : List String) :
    SubtreeWorld :=
  ⟨w.conf, (n, l) :: w.lists⟩

/-- Scenario S6: the trust anchor lists itself (and `RP`) among its own
subordinates. -/
def fedTA : FedEntity := ⟨"https://ta.example", true⟩
def fedRP : FedEntity := ⟨"https://rp.example", true⟩
def wSelfList : SubtreeWorld :=
  ⟨[("https://ta.example", fedTA), ("https://rp.example", fedRP)],
   [("https://ta.example", ["https://ta.example", "https://rp.example"])]⟩

/-! ### URL normalization (`utils.py`)

The `URL` class (utils.py lines 61-112) stores `pydantic.HttpUrl(url)`;
`__eq__` and `__hash__` compare and hash that parsed value (lines 75-89).
`remove_trailing_slashes` (lines 105-112) and `well_known_url` (lines
183-191) both run `urllib.parse.urlparse(str(self))` and transform only
the path component (`url_parts[2]`); scheme, host and query pass through
unchanged, on which the three operations agree with plain equality, so
the path component (a list of characters) is what is modelled here. -/

/-- pydantic `HttpUrl` path normalization: parsing turns an empty path
into `"/"` (so `https://example.com` and `https://example.com/` parse
equal) and preserves every other path verbatim — in particular it does
not strip the trailing slash of a non-empty path. -/
def pydanticPath (p : List Char) : List Char := if p = [] then ['/'] else p

/-- `URL.__eq__` restricted to the path component: equality of the
pydantic-parsed values. -/
def urlPathEq (p q : List Char) : Bool := pydanticPath p == pydanticPath q

/-- Python's `path.rstrip("/")`: drop all trailing `'/'` characters. -/
def rstripSlash (p : List Char) : List Char :=
  (p.reverse.dropWhile (fun c => c == '/')).reverse

/-- `URL.remove_trailing_slashes` on the path component:
`urlparse(str(self))` yields the pydantic-parsed path, whose trailing
slashes are stripped. -/
def remove_trailing_slashes (p : List Char) : List Char :=
  rstripSlash (pydanticPath p)

/-- The path suffix appended by `well_known_url`. -/
def wkSuffix : List Char := "/.well-known/openid-federation".data

/-- `well_known_url` on the path component (utils.py line 190):
`url_parts[2].rstrip("/") + "/.well-known/openid-federation"`. -/
def well_known_path (p : List Char) : List Char :=
  remove_trailing_slashes p ++ wkSuffix

/-- The pattern `"//.well-known"` that `well_known_url` must not
produce. -/
def dslash : List Char := "//.well-known".data

/-! ### Lemmas about `TrustTree.chains` -/

theorem foldl_cons_rev {α β : Type} (f : α → β) :
    ∀ (l : List α) (acc : List β),
      l.foldl (fun acc2 c => f c :: acc2) acc = (l.map f).reverse ++ acc := by
  intro l
  induction l with
  | nil => intro acc; rfl
  | cons a t ih =>
    intro acc
    simp only [List.foldl_cons, List.map_cons, List.reverse_cons, ih]
    simp

theorem chainsGo_some (st : EntityStatement) :
    ∀ (auths : List TrustTree) (acc : List (List EntityStatement)),
      TrustTree.chainsGo (some st) auths acc =
        ((auths.flatMap TrustTree.chains).map (st :: ·)).reverse ++ acc := by
  intro auths
  induction auths with
  | nil => intro acc; rfl
  | cons a t ih =>
    intro acc
    simp only [TrustTree.chainsGo, ih, foldl_cons_rev]
    simp [List.flatMap_cons]

theorem chainsGo_none :
    ∀ (auths : List TrustTree) (acc : List (List EntityStatement)),
      TrustTree.chainsGo none auths acc = acc ++ auths.flatMap TrustTree.chains := by
  intro auths
  induction auths with
  | nil => intro acc; simp [TrustTree.chainsGo]
  | cons a t ih =>
    intro acc
    simp only [TrustTree.chainsGo, ih]
    simp [List.flatMap_cons]

theorem chains_node_none (e : EntityStatement) (auths : List TrustTree) :
    (TrustTree.node e none auths).chains = auths.flatMap TrustTree.chains := by
  cases auths with
  | nil => rfl
  | cons a t =>
    simp only [TrustTree.chains, List.isEmpty_cons, chainsGo_none]
    simp

theorem chains_node_some (e st : EntityStatement) (auths : List TrustTree)
    (h : auths ≠ []) :
    (TrustTree.node e (some st) auths).chains =
      ((auths.flatMap TrustTree.chains).map (st :: ·)).reverse := by
  cases auths with
  | nil => exact absurd rfl h
  | cons a t =>
    simp only [TrustTree.chains, List.isEmpty_cons, chainsGo_some]
    simp

/-- C9 (counterexample): in the world where `S`'s only superior `I` lists
authority hints `[X, X, Y]`, the resolver returns three chains — the
duplicated hint `X` is explored twice, and the chain through `Y` comes
first, so the output is neither deduplicated nor in document order of the
hints. -/
theorem chains_order_counterexample :
    resolverChainsF wDupHints ["https://x.example", "https://y.example"]
        "https://s.example" 10 =
      some (.ok [[sI, iS, yI, yCfg], [sI, iS, xI, xCfg], [sI, iS, xI, xCfg]]) ∧
    [[sI, iS, yI, yCfg], [sI, iS, xI, xCfg], [sI, iS, xI, xCfg]] ≠
      [[sI, iS, xI, xCfg], [sI, iS, yI, yCfg]] := by
  constructor
  · decide
  · decide

/-- C9 (amended): authority hints are explored in document order, once per
occurrence (duplicates included).  A node whose `subordinate` is `None`
(the root) concatenates its branches' chains in document order, but every
deeper node emits the chains of its authority branches in *reverse*
document order, because `TrustTree.chains` prepends
(`chains = [chain] + chains`, trustchain.py line 190). -/
theorem chains_order_characterization (e st : EntityStatement)
    (auths : List TrustTree) (h : auths ≠ []) :
    (TrustTree.node e none auths).chains = auths.flatMap TrustTree.chains ∧
    (TrustTree.node e (some st) auths).chains =
      ((auths.flatMap TrustTree.chains).map (st :: ·)).reverse :=
  ⟨chains_node_none e auths, chains_node_some e st auths h⟩

/-- Witness for C9 (amended) at a concrete one-branch tree. -/
theorem chains_order_characterization_witness :
    (TrustTree.node taCfg none [TrustTree.node gCfg (some gS) []]).chains =
        [TrustTree.node gCfg (some gS) []].flatMap TrustTree.chains ∧
    (TrustTree.node taCfg (some taS) [TrustTree.node gCfg (some gS) []]).chains =
        (([TrustTree.node gCfg (some gS) []].flatMap TrustTree.chains).map
          (taS :: ·)).reverse :=
  chains_order_characterization taCfg taS [TrustTree.node gCfg (some gS) []]
    (by simp)

/-- C10: if the starting entity is itself terminal (its subject is in the
anchor set, or the anchor set is empty and it has no authority hints),
`TrustTree.resolve` reports success but `TrustChainResolver.chains()`
returns the empty list: no single-statement chain is emitted. -/
theorem terminal_start_no_chains (w : FedWorld) (anchors : List String)
    (start : String) (st : EntityStatement) (fuel : Nat)
    (hconf : w.conf.lookup start = some st)
    (hterm : terminal anchors st) :
    resolverChainsF w anchors start (fuel + 1) = some (.ok []) ∧
    (resolveF w anchors (fuel + 1) st []).map (Except.map (fun r => r.1)) =
      some (.ok true) := by
  have hres : resolveF w anchors (fuel + 1) st [] =
      some (.ok (true, [], [st.sub])) := by
    rcases hterm with h | ⟨ha, hh⟩
    · simp [resolveF, h]
    · simp [resolveF, ha, hh]
  refine ⟨?_, by simp [hres, Except.map]⟩
  simp [resolverChainsF, hconf, hres, TrustTree.chains]

/-- Witness for C10: starting directly at the trust anchor of scenario S1
yields success and no chains. -/
theorem terminal_start_no_chains_witness :
    resolverChainsF wS1 ["https://ta.example"] "https://ta.example" 5 =
      some (.ok []) ∧
    (resolveF wS1 ["https://ta.example"] 5 taCfg []).map
        (Except.map (fun r => r.1)) = some (.ok true) :=
  terminal_start_no_chains wS1 ["https://ta.example"] "https://ta.example"
    taCfg 4 (by decide) (by decide)

/-- In the two-node cycle world, `TrustTree.resolve` never terminates:
for every recursion depth, the resolution of `A` and of `B` runs out of
fuel, whatever the `seen` list contains — the `seen` list is appended to
but never consulted. -/
theorem cycle_resolveF_none : ∀ (fuel : Nat) (seen : List String),
    resolveF wCycle ["https://ta.example"] fuel aCyc seen = none ∧
    resolveF wCycle ["https://ta.example"] fuel bCyc seen = none := by
  intro fuel
  induction fuel with
  | zero => intro seen; exact ⟨rfl, rfl⟩
  | succ n ih =>
    intro seen
    have hca : wCycle.conf.lookup "https://a.example" = some aCyc := by decide
    have hcb : wCycle.conf.lookup "https://b.example" = some bCyc := by decide
    have hsa : wCycle.subs.lookup ("https://b.example", "https://a.example") =
        some ⟨"https://b.example", "https://a.example", 50, []⟩ := by decide
    have hsb : wCycle.subs.lookup ("https://a.example", "https://b.example") =
        some ⟨"https://a.example", "https://b.example", 50, []⟩ := by decide
    constructor
    · simp [resolveF, resolveGo, aCyc, hcb, hsa,
        (ih (seen ++ ["https://a.example"])).2]
    · simp [resolveF, resolveGo, bCyc, hca, hsb,
        (ih (seen ++ ["https://b.example"])).1]

/-- C2: the `seen` list carried by `TrustTree.resolve` is appended to but
never consulted, so nothing is ever skipped; on the two-node
authority-hint cycle `A ↔ B` with an unreachable anchor, resolution does
not terminate at any recursion depth (each level fetches two more
configurations), instead of returning `[]` within at most 4 fetches. -/
theorem resolve_cycle_diverges : ∀ fuel : Nat,
    resolverChainsF wCycle ["https://ta.example"] "https://a.example" fuel =
      none := by
  intro fuel
  have h := (cycle_resolveF_none fuel []).1
  have h0 : wCycle.conf.lookup "https://a.example" = some aCyc := by decide
  simp [resolverChainsF, h0, h]

/-- C3 (counterexample): the starting entity `S` has authority hints
`[B, G]`; fetching the subordinate statement from `B` fails, and `G` is a
reachable trust anchor.  `get_trustchains` returns no chains at all —
the failing branch `B` aborts the whole node instead of being skipped —
although with the `B` branch absent the same federation yields the chain
through `G`. -/
theorem branch_failure_counterexample :
    resolverChainsF wBranchFail ["https://g.example"] "https://s.example" 10 =
      some (.ok []) ∧
    resolverChainsF wBranchOk ["https://g.example"] "https://s.example" 10 =
      some (.ok [[sG, gS, gCfg]]) := by
  constructor
  · decide
  · decide

/-- C3 (amended): a failure to fetch the subordinate statement on an
authority branch makes `TrustTree.resolve` return `False` for the whole
node, with no child attached and without exploring the remaining
branches (the conclusion holds for every list `rest` of remaining
hints); a failure to fetch an authority's own entity configuration
raises out of the resolver; a failure to fetch the starting entity's
configuration makes `get_trustchains` raise; and when every fetch
succeeds but no anchor is reachable (scenario S2), `get_trustchains`
returns the empty chain list. -/
theorem branch_failure_aborts (w : FedWorld) (anchors : List String)
    (e e2 : EntityStatement) (seen : List String) (fuel : Nat)
    (b bb : String) (rest rest2 : List String) (start : String)
    (bstmt : EntityStatement)
    (hh : e.authority_hints = b :: rest)
    (hna : e.sub ∉ anchors)
    (hb : w.conf.lookup b = some bstmt)
    (hnosub : w.subs.lookup (b, e.sub) = none)
    (hh2 : e2.authority_hints = bb :: rest2)
    (hna2 : e2.sub ∉ anchors)
    (hbb : w.conf.lookup bb = none)
    (hcs : w.conf.lookup start = none) :
    resolveF w anchors (fuel + 1) e seen =
      some (.ok (false, [], seen ++ [e.sub])) ∧
    resolveF w anchors (fuel + 1) e2 seen = some (.error ()) ∧
    resolverChainsF w anchors start fuel = some (.error ()) ∧
    resolverChainsF wS1 ["https://other.example"] "https://rp.example" 10 =
      some (.ok []) := by
  refine ⟨?_, ?_, ?_, by decide⟩
  · simp [resolveF, resolveGo, hh, hna, hb, hnosub]
  · simp [resolveF, resolveGo, hh2, hna2, hbb]
  · simp [resolverChainsF, hcs]

/-- Witness for C3 (amended) in the concrete branch-failure world. -/
theorem branch_failure_aborts_witness :
    resolveF wBranchFail ["https://g.example"] 10 sBG [] =
      some (.ok (false, [], [] ++ [sBG.sub])) ∧
    resolveF wBranchFail ["https://g.example"] 10
        ⟨"https://e2.example", "https://e2.example", 0,
         ["https://missing.example"]⟩ [] = some (.error ()) ∧
    resolverChainsF wBranchFail ["https://g.example"]
        "https://absent.example" 9 = some (.error ()) ∧
    resolverChainsF wS1 ["https://other.example"] "https://rp.example" 10 =
      some (.ok []) :=
  branch_failure_aborts wBranchFail ["https://g.example"] sBG
    ⟨"https://e2.example", "https://e2.example", 0,
     ["https://missing.example"]⟩ [] 9 "https://b.example"
    "https://missing.example" ["https://g.example"] [] "https://absent.example"
    bCfg (by decide) (by decide) (by decide) (by decide) (by decide)
    (by decide) (by decide) (by decide)

/-- C4: in a federation with two chains to the anchor — one of length 4
through an intermediate and one of length 3 directly — `resolve_entity`
applies the policy engine to `chains[0]`, which is the length-4 chain,
not the shortest one (`# TODO: select the shortest chain if more than
one`, core.py line 192). -/
theorem resolve_entity_picks_first_chain :
    resolveEntityChainF wTwoChains "https://ta.example" "https://s.example"
        10 = some (.ok (some [sA1TA, a1S, taA1, taCfg])) ∧
    resolverChainsF wTwoChains ["https://ta.example"] "https://s.example" 10 =
      some (.ok [[sA1TA, a1S, taA1, taCfg], [sA1TA, taS, taCfg]]) ∧
    [sA1TA, a1S, taA1, taCfg].length = 4 ∧
    [sA1TA, taS, taCfg].length = 3 := by
  refine ⟨by decide, by decide, rfl, rfl⟩

/-! ### The Trust Chain invariant (C1) -/

theorem lookup_mem {α β : Type} [BEq α] [LawfulBEq α] :
    ∀ {l : List (α × β)} {k : α} {v : β},
      l.lookup k = some v → (k, v) ∈ l := by
  intro l
  induction l with
  | nil => intro k v h; simp [List.lookup] at h
  | cons p t ih =>
    intro k v h
    obtain ⟨a, b⟩ := p
    rw [List.lookup] at h
    split at h
    · next heq =>
      obtain rfl : b = v := by injection h
      obtain rfl : k = a := eq_of_beq heq
      exact List.mem_cons_self _ _
    · exact List.mem_cons_of_mem _ (ih h)

/-- Invariant of the authority-hints loop of `TrustTree.resolve`: whenever
the loop returns normally (`.ok`), every tree it has attached is a good
subtree of the node being resolved, and a `True` validity flag means at
least one child was attached. -/
theorem resolveGo_ok (w : FedWorld) (anchors : List String)
    (recur : EntityStatement → List String → Option ResolveResult)
    (sub : String)
    (hrec : ∀ e s v2 ca s2, recur e s = some (.ok (v2, ca, s2)) →
      (∀ t ∈ ca, GoodTree w anchors e.sub t) ∧
      (v2 = true → ca = [] → terminal anchors e)) :
    ∀ (hints : List String) (valid : Bool) (auths : List TrustTree)
      (seen : List String) (v : Bool) (auths' : List TrustTree)
      (seen' : List String),
      resolveGo w anchors recur sub hints valid auths seen =
        some (.ok (v, auths', seen')) →
      (∀ t ∈ auths, GoodTree w anchors sub t) →
      (valid = true → auths ≠ []) →
      (∀ t ∈ auths', GoodTree w anchors sub t) ∧ (v = true → auths' ≠ []) := by
  intro hints
  induction hints with
  | nil =>
    intro valid auths seen v auths' seen' h hg hv
    simp only [resolveGo, Option.some.injEq, Except.ok.injEq] at h
    obtain ⟨rfl, rfl, rfl⟩ := h
    exact ⟨hg, hv⟩
  | cons a rest ih =>
    intro valid auths seen v auths' seen' h hg hv
    rw [resolveGo] at h
    cases hca : w.conf.lookup a with
    | none => rw [hca] at h; simp at h
    | some astmt =>
      rw [hca] at h
      dsimp only at h
      cases hsu : w.subs.lookup (a, sub) with
      | none =>
        rw [hsu] at h
        simp only [Option.some.injEq, Except.ok.injEq] at h
        obtain ⟨rfl, rfl, rfl⟩ := h
        exact ⟨hg, by simp⟩
      | some sstmt =>
        rw [hsu] at h
        dsimp only at h
        cases hr : recur astmt seen with
        | none => rw [hr] at h; simp at h
        | some r =>
          rw [hr] at h
          match r with
          | .error e => simp at h
          | .ok (cv, ca, s2) =>
            dsimp only at h
            have hgood := hrec astmt seen cv ca s2 hr
            by_cases hcv : cv = true
            · rw [if_pos hcv] at h
              refine ih true (auths ++ [TrustTree.node astmt (some sstmt) ca])
                s2 v auths' seen' h ?_ (by simp)
              intro t ht
              rcases List.mem_append.mp ht with htl | htr
              · exact hg t htl
              · have : t = TrustTree.node astmt (some sstmt) ca := by
                  simpa using htr
                subst this
                exact GoodTree.mk sub a astmt sstmt ca hca hsu
                  (fun hnil => hgood.2 hcv hnil) hgood.1
            · rw [if_neg hcv] at h
              exact ih valid auths s2 v auths' seen' h hg hv

/-- Whenever `TrustTree.resolve` returns normally, every attached child is
a good subtree, and success with no children means the node is terminal. -/
theorem resolveF_good (w : FedWorld) (anchors : List String) :
    ∀ (fuel : Nat) (e : EntityStatement) (seen : List String) (v : Bool)
      (auths : List TrustTree) (seen' : List String),
      resolveF w anchors fuel e seen = some (.ok (v, auths, seen')) →
      (∀ t ∈ auths, GoodTree w anchors e.sub t) ∧
      (v = true → auths = [] → terminal anchors e) := by
  intro fuel
  induction fuel with
  | zero => intro e seen v auths seen' h; simp [resolveF] at h
  | succ n ih =>
    intro e seen v auths seen' h
    rw [resolveF] at h
    by_cases hin : e.sub ∈ anchors
    · rw [if_pos hin] at h
      simp only [Option.some.injEq, Except.ok.injEq] at h
      obtain ⟨rfl, rfl, rfl⟩ := h
      exact ⟨by simp, fun _ _ => Or.inl hin⟩
    · rw [if_neg hin] at h
      by_cases hhe : e.authority_hints.isEmpty
      · rw [if_pos hhe] at h
        by_cases han : anchors.isEmpty
        · rw [if_pos han] at h
          simp only [Option.some.injEq, Except.ok.injEq] at h
          obtain ⟨rfl, rfl, rfl⟩ := h
          refine ⟨by simp, fun _ _ => Or.inr ?_⟩
          exact ⟨List.isEmpty_iff.mp han, List.isEmpty_iff.mp hhe⟩
        · rw [if_neg han] at h
          simp only [Option.some.injEq, Except.ok.injEq] at h
          obtain ⟨rfl, rfl, rfl⟩ := h
          exact ⟨by simp, by simp⟩
      · rw [if_neg hhe] at h
        have hres := resolveGo_ok w anchors
          (fun a s => resolveF w anchors n a s) e.sub
          (fun e2 s2 v2 ca sn2 hr => ih e2 s2 v2 ca sn2 hr)
          e.authority_hints false [] (seen ++ [e.sub]) v auths seen' h
          (by simp) (by simp)
        exact ⟨hres.1, fun hvt hnil => ((hres.2 hvt) hnil).elim⟩

/-- Every chain serialized out of a good subtree under a node with subject
`psub` starts with a statement about `psub`, is linked throughout, and
ends in a self-signed statement whose subject is a trust anchor when
anchors were given. -/
theorem chains_good {w : FedWorld} {anchors : List String}
    (hw : HonestWorld w) :
    ∀ {psub : String} {t : TrustTree}, GoodTree w anchors psub t →
      ∀ c ∈ t.chains,
        (∃ s0 c', c = s0 :: c' ∧ s0.sub = psub) ∧
        Chained c ∧ LastOk anchors c := by
  intro psub t hg
  induction hg with
  | mk psub a astmt sstmt cauths hconf hsub hterm hch ih =>
    intro c hc
    have ha := hw.1 _ (lookup_mem hconf)
    have hs := hw.2 _ (lookup_mem hsub)
    by_cases hnil : cauths = []
    · subst hnil
      have : c = [sstmt, astmt] := by
        simpa [TrustTree.chains] using hc
      subst this
      refine ⟨⟨sstmt, [astmt], rfl, hs.2⟩, ?_, ?_⟩
      · exact ⟨hs.1.trans ha.2.symm, trivial⟩
      · refine ⟨ha.1.trans ha.2.symm, fun hne => ?_⟩
        rcases hterm rfl with hin | ⟨hanil, _⟩
        · exact hin
        · exact absurd hanil hne
    · rw [chains_node_some _ _ _ hnil] at hc
      rw [List.mem_reverse, List.mem_map] at hc
      obtain ⟨c0, hc0, rfl⟩ := hc
      rw [List.mem_flatMap] at hc0
      obtain ⟨t, ht, hct⟩ := hc0
      obtain ⟨⟨s0, c1, rfl, hs0⟩, hch1, hlast1⟩ := ih t ht _ hct
      refine ⟨⟨sstmt, s0 :: c1, rfl, hs.2⟩, ?_, hlast1⟩
      exact ⟨hs.1.trans (hs0.trans ha.2).symm, hch1⟩

/-- C1: assuming a well-formed federation (configurations self-signed at
their own identifier, subordinate statements carrying the issuer and
subject they were requested for), every chain emitted by
`TrustChainResolver.chains()` satisfies the Trust Chain invariant:
the leaf configuration is self-signed, adjacent statements are linked by
`sᵢ.iss == sᵢ₊₁.sub`, the final statement is self-signed, and when a
non-empty anchor set was given its subject is one of the anchors. -/
theorem trustchain_invariant (w : FedWorld) (anchors : List String)
    (start : String) (fuel : Nat) (cs : List (List EntityStatement))
    (hw : HonestWorld w)
    (hres : resolverChainsF w anchors start fuel = some (.ok cs)) :
    ∀ c ∈ cs, ChainInv anchors c := by
  intro c hc
  unfold resolverChainsF at hres
  cases hcs : w.conf.lookup start with
  | none => rw [hcs] at hres; simp at hres
  | some st =>
    rw [hcs] at hres
    dsimp only at hres
    cases hr : resolveF w anchors fuel st [] with
    | none => rw [hr] at hres; simp at hres
    | some r =>
      rw [hr] at hres
      match r with
      | .error e => simp at hres
      | .ok (v, auths, seen') =>
        dsimp only at hres
        simp only [Option.some.injEq, Except.ok.injEq] at hres
        subst hres
        rw [List.mem_map] at hc
        obtain ⟨c0, hc0, rfl⟩ := hc
        rw [chains_node_none, List.mem_flatMap] at hc0
        obtain ⟨t, ht, hct⟩ := hc0
        have hg := (resolveF_good w anchors fuel st [] v auths seen' hr).1 t ht
        have hst := hw.1 _ (lookup_mem hcs)
        obtain ⟨⟨s0, c1, rfl, hs0⟩, hch1, hlast1⟩ := chains_good hw hg _ hct
        refine ⟨hst.1.trans hst.2.symm, ?_, hlast1⟩
        exact ⟨hst.1.trans (hs0.trans hst.2).symm, hch1⟩

/-- Witness for C1: the single chain of scenario S1 satisfies the Trust
Chain invariant. -/
theorem trustchain_invariant_witness :
    ChainInv ["https://ta.example"] [rpCfg, iaRp, taIa, taCfg] :=
  trustchain_invariant wS1 ["https://ta.example"] "https://rp.example" 10
    [[rpCfg, iaRp, taIa, taCfg]] (by decide) (by decide)
    [rpCfg, iaRp, taIa, taCfg] (by simp)

/-! ### Chain expiration (C6) -/

/-- The fold of `TrustChain.__init__` computes, from a positive
accumulator over statements with positive `exp`, the minimum of the
accumulator and all the `exp` claims. -/
theorem chainExp_fold_min :
    ∀ (l : List EntityStatement) (acc : Int), 0 < acc →
      (∀ s ∈ l, 0 < s.exp) →
      (l.foldl (fun x y => if x ≠ 0 ∧ x < y.exp then x else y.exp) acc
          ∈ acc :: l.map (fun s => s.exp)) ∧
      ∀ e ∈ acc :: l.map (fun s => s.exp),
        l.foldl (fun x y => if x ≠ 0 ∧ x < y.exp then x else y.exp) acc ≤ e := by
  intro l
  induction l with
  | nil =>
    intro acc hacc _
    refine ⟨by simp, ?_⟩
    intro e he
    simp only [List.map_nil, List.mem_singleton] at he
    simp [he]
  | cons y t ih =>
    intro acc hacc hpos
    have hy : 0 < y.exp := hpos y (by simp)
    have hstep : (if acc ≠ 0 ∧ acc < y.exp then acc else y.exp) =
        min acc y.exp := by
      by_cases hlt : acc < y.exp
      · rw [if_pos ⟨by omega, hlt⟩]; omega
      · rw [if_neg (fun hco => hlt hco.2)]; omega
    have hmin : 0 < min acc y.exp := by omega
    obtain ⟨hmem, hle⟩ :=
      ih (min acc y.exp) hmin (fun q hq => hpos q (List.mem_cons_of_mem _ hq))
    simp only [List.foldl_cons, hstep, List.map_cons]
    constructor
    · rcases List.mem_cons.mp hmem with heq | hmem2
      · rcases le_total acc y.exp with hle2 | hle2
        · rw [heq, min_eq_left hle2]; simp
        · rw [heq, min_eq_right hle2]; simp
      · simp [hmem2]
    · intro e he
      have hfm := hle _ (List.mem_cons_self _ _)
      rcases List.mem_cons.mp he with rfl | he2
      · omega
      · rcases List.mem_cons.mp he2 with rfl | he3
        · omega
        · exact hle e (List.mem_cons_of_mem _ he3)

/-- C6: for every non-empty trust chain whose statements carry positive
`exp` claims, the expiration computed by `TrustChain.__init__` is the
minimum of the statements' `exp` values (it is one of them and a lower
bound of all of them). -/
theorem chain_exp_is_min (chain : List EntityStatement)
    (hne : chain ≠ []) (hpos : ∀ s ∈ chain, 0 < s.exp) :
    chainExp chain ∈ chain.map (fun s => s.exp) ∧
    ∀ e ∈ chain.map (fun s => s.exp), chainExp chain ≤ e := by
  cases chain with
  | nil => exact absurd rfl hne
  | cons s t =>
    have h0 : chainExp (s :: t) =
        t.foldl (fun x y => if x ≠ 0 ∧ x < y.exp then x else y.exp) s.exp := by
      simp [chainExp]
    have hx := chainExp_fold_min t s.exp (hpos s (by simp))
      (fun q hq => hpos q (List.mem_cons_of_mem _ hq))
    rw [h0]
    simpa using hx

/-- Witness for C6: the expiration of the S1 chain is 60, the minimum of
`100, 70, 60, 80`. -/
theorem chain_exp_is_min_witness :
    chainExp [rpCfg, iaRp, taIa, taCfg] ∈
      [rpCfg, iaRp, taIa, taCfg].map (fun s => s.exp) ∧
    chainExp [rpCfg, iaRp, taIa, taCfg] = 60 :=
  ⟨(chain_exp_is_min [rpCfg, iaRp, taIa, taCfg] (by decide) (by decide)).1,
   by decide⟩

/-! ### Policy application (C5) -/

theorem lookup_append {β : Type} (p : String) :
    ∀ (m l : List (String × β)),
      (m ++ l).lookup p =
        match m.lookup p with
        | some v => some v
        | none => l.lookup p := by
  intro m l
  induction m with
  | nil => simp [List.lookup]
  | cons q t ih =>
    obtain ⟨a, b⟩ := q
    rw [List.cons_append, List.lookup, List.lookup]
    cases hpa : p == a
    · simpa using ih
    · simp

theorem lookup_map_replace_self (p : String) (v : MVal) :
    ∀ m : List (String × MVal), (m.lookup p).isSome →
      (m.map (fun q => if q.1 = p then (p, v) else q)).lookup p = some v := by
  intro m
  induction m with
  | nil => intro h; simp [List.lookup] at h
  | cons q t ih =>
    obtain ⟨a, b⟩ := q
    intro h
    by_cases hap : a = p
    · have hf : (if (a, b).1 = p then (p, v) else (a, b)) = (p, v) := by
        simp [hap]
      rw [List.map_cons, hf, List.lookup]
      simp
    · have hpa : (p == a) = false := beq_eq_false_iff_ne.mpr (Ne.symm hap)
      rw [List.lookup, hpa] at h
      dsimp only at h
      have hf : (if (a, b).1 = p then (p, v) else (a, b)) = (a, b) := by
        simp [hap]
      rw [List.map_cons, hf, List.lookup, hpa]
      dsimp only
      exact ih h

theorem lookup_map_replace_ne (p q0 : String) (v : MVal) (hne : q0 ≠ p) :
    ∀ m : List (String × MVal),
      (m.map (fun q => if q.1 = p then (p, v) else q)).lookup q0 =
        m.lookup q0 := by
  intro m
  induction m with
  | nil => simp
  | cons q t ih =>
    obtain ⟨a, b⟩ := q
    by_cases hap : a = p
    · have hqa : (q0 == a) = false :=
        beq_eq_false_iff_ne.mpr (fun hc => hne (hc.trans hap))
      have hqp : (q0 == p) = false := beq_eq_false_iff_ne.mpr hne
      have hf : (if (a, b).1 = p then (p, v) else (a, b)) = (p, v) := by
        simp [hap]
      rw [List.map_cons, hf, List.lookup, List.lookup, hqa, hqp]
      dsimp only
      exact ih
    · have hf : (if (a, b).1 = p then (p, v) else (a, b)) = (a, b) := by
        simp [hap]
      rw [List.map_cons, hf, List.lookup, List.lookup]
      cases q0 == a
      · dsimp only; exact ih
      · rfl

theorem setParam_lookup_self (m : List (String × MVal)) (p : String)
    (v : MVal) : (setParam m p v).lookup p = some v := by
  unfold setParam
  by_cases h : (m.lookup p).isSome
  · rw [if_pos h]
    exact lookup_map_replace_self p v m h
  · rw [if_neg h]
    rw [lookup_append]
    rw [Option.not_isSome_iff_eq_none.mp h]
    simp [List.lookup]

theorem setParam_lookup_ne (m : List (String × MVal)) (p q0 : String)
    (v : MVal) (hne : q0 ≠ p) :
    (setParam m p v).lookup q0 = m.lookup q0 := by
  unfold setParam
  by_cases h : (m.lookup p).isSome
  · rw [if_pos h]
    exact lookup_map_replace_ne p q0 v hne m
  · rw [if_neg h]
    rw [lookup_append]
    cases hq : m.lookup q0
    · dsimp only
      have : (q0 == p) = false := beq_eq_false_iff_ne.mpr hne
      simp [List.lookup, this]
    · rfl

theorem applySteps12_lookup_ne (m : List (String × MVal)) (p q0 : String)
    (r : PolicyRule) (hne : q0 ≠ p) :
    (applySteps12 m p r).lookup q0 = m.lookup q0 := by
  unfold applySteps12
  cases r.value
  · cases m.lookup p <;> cases r.default <;>
      first
        | rfl
        | exact setParam_lookup_ne m p q0 _ hne
  · exact setParam_lookup_ne m p q0 _ hne

theorem applyStep3_lookup_ne (m1 : List (String × MVal)) (p q0 : String)
    (r : PolicyRule) (hne : q0 ≠ p) :
    (applyStep3 m1 p r).lookup q0 = m1.lookup q0 := by
  unfold applyStep3
  cases r.add
  · rfl
  · exact setParam_lookup_ne m1 p q0 _ hne

theorem applyParam_ok (m m2 : List (String × MVal)) (p : String)
    (r : PolicyRule) (h : applyParam m p r = .ok m2) :
    m2 = applyStep3 (applySteps12 m p r) p r := by
  unfold applyParam at h
  split at h
  · injection h with h2
    exact h2.symm
  · exact absurd h (by simp)

theorem applyParam_lookup_ne (m m2 : List (String × MVal)) (p q0 : String)
    (r : PolicyRule) (hne : q0 ≠ p) (h : applyParam m p r = .ok m2) :
    m2.lookup q0 = m.lookup q0 := by
  rw [applyParam_ok m m2 p r h, applyStep3_lookup_ne _ _ _ _ hne,
    applySteps12_lookup_ne _ _ _ _ hne]

/-- Parameters outside the combined policy's domain are untouched by
`apply_policy`. -/
theorem apply_policy_lookup_notin :
    ∀ (pol : List (String × PolicyRule)) (m m' : List (String × MVal))
      (p : String),
      (∀ q ∈ pol, q.1 ≠ p) → apply_policy m pol = .ok m' →
      m'.lookup p = m.lookup p := by
  intro pol
  induction pol with
  | nil =>
    intro m m' p _ h
    rw [apply_policy] at h
    injection h with h2
    rw [h2]
  | cons q rest ih =>
    intro m m' p hq h
    obtain ⟨a, r⟩ := q
    rw [apply_policy] at h
    cases happ : applyParam m a r with
    | error e => rw [happ] at h; simp at h
    | ok m2 =>
      rw [happ] at h
      dsimp only at h
      have h1 := ih m2 m' p (fun q hqr => hq q (List.mem_cons_of_mem _ hqr)) h
      have h2 := applyParam_lookup_ne m m2 a p r
        (fun hc => hq (a, r) (List.mem_cons_self _ _) hc.symm) happ
      rw [h1, h2]

/-- C5 (counterexample): with the combined policy
`{default: ["openid"], add: ["profile"]}` on an absent `scope`, the
resulting metadata is `["openid", "profile"]`, not the bare default
`["openid"]` the claim requires: step 3 (`add`) extends the value that
step 2 (`default`) filled in. -/
theorem apply_policy_default_add_counterexample :
    apply_policy []
        [("scope", ⟨none, none, none, some ["profile"], none,
          some (.list ["openid"]), none⟩)] =
      .ok [("scope", MVal.list ["openid", "profile"])] ∧
    some (MVal.list ["openid", "profile"]) ≠ some (MVal.list ["openid"]) := by
  refine ⟨by decide, by decide⟩

/-- C5 (amended): for every metadata block `M`, combined policy `P` (with
distinct parameter names) and parameter `p`, if `M[p]` is absent,
`P[p].default` is set, `P[p].value` is not set and `P[p].add` is not set,
then whenever policy application succeeds the resulting effective
metadata has `M'[p] = P[p].default`; in particular, for a combined policy
`{default: ["openid"]}` on `scope` and metadata omitting `scope`, the
resolved metadata has `scope = ["openid"]`. -/
theorem apply_policy_fills_default :
    ∀ (pol : List (String × PolicyRule)) (m m' : List (String × MVal))
      (p : String) (r : PolicyRule) (d : MVal),
      (pol.map Prod.fst).Nodup →
      pol.lookup p = some r →
      m.lookup p = none →
      r.value = none → r.default = some d → r.add = none →
      apply_policy m pol = .ok m' →
      m'.lookup p = some d := by
  intro pol
  induction pol with
  | nil => intro m m' p r d _ hr; simp [List.lookup] at hr
  | cons q rest ih =>
    intro m m' p r d hnd hr hm hval hdef hadd hok
    obtain ⟨a, ra⟩ := q
    have hnd2 : a ∉ rest.map Prod.fst ∧ (rest.map Prod.fst).Nodup := by
      rw [List.map_cons] at hnd
      exact List.nodup_cons.mp hnd
    rw [apply_policy] at hok
    cases happ : applyParam m a ra with
    | error e => rw [happ] at hok; simp at hok
    | ok m2 =>
      rw [happ] at hok
      dsimp only at hok
      by_cases hpa : p = a
      · subst hpa
        have hra : ra = r := by
          rw [List.lookup] at hr
          simpa using hr
        subst hra
        have hm2 : m2.lookup p = some d := by
          rw [applyParam_ok m m2 p ra happ]
          unfold applyStep3
          rw [hadd]
          unfold applySteps12
          rw [hval, hm, hdef]
          exact setParam_lookup_self m p d
        have hnotin : ∀ q ∈ rest, q.1 ≠ p := by
          intro q hq hc
          exact hnd2.1 (hc ▸ List.mem_map_of_mem Prod.fst hq)
        rw [apply_policy_lookup_notin rest m2 m' p hnotin hok, hm2]
      · have hpaf : (p == a) = false := beq_eq_false_iff_ne.mpr hpa
        have hr' : rest.lookup p = some r := by
          rw [List.lookup, hpaf] at hr
          exact hr
        have hm2 : m2.lookup p = none := by
          rw [applyParam_lookup_ne m m2 a p ra hpa happ]
          exact hm
        exact ih m2 m' p r d hnd2.2 hr' hm2 hval hdef hadd hok

/-- Witness for C5 (amended), scenario S5: the leaf metadata omits
`scope`, the combined policy is `{default: ["openid"]}`, and the resolved
metadata has `scope = ["openid"]`. -/
theorem apply_policy_fills_default_witness :
    ([("scope", MVal.list ["openid"])] : List (String × MVal)).lookup
      "scope" = some (MVal.list ["openid"]) :=
  apply_policy_fills_default
    [("scope", ⟨none, none, none, none, none, some (.list ["openid"]), none⟩)]
    [] [("scope", MVal.list ["openid"])] "scope"
    ⟨none, none, none, none, none, some (.list ["openid"]), none⟩
    (.list ["openid"]) (by decide) (by decide) (by decide) (by decide)
    (by decide) (by decide) (by decide)

/-! ### Self-subordinate rejection (C8) -/

/-- `discoverGo` only depends on the world's configurations and on the
recursive call, not on the world's listings. -/
theorem discoverGo_congr (w w' : SubtreeWorld) (hconf : w.conf = w'.conf)
    (recur recur' : FedEntity → Option (Except Unit FedTree))
    (hrec : ∀ c, recur c = recur' c) (s : String) :
    ∀ (sids : List String) (acc : List FedTree),
      discoverGo w recur s sids acc = discoverGo w' recur' s sids acc := by
  intro sids
  induction sids with
  | nil => intro acc; rfl
  | cons sid rest ih =>
    intro acc
    rw [discoverGo, discoverGo, hconf]
    cases hc : w'.conf.lookup sid
    · dsimp only
      exact ih acc
    · dsimp only
      next c =>
      by_cases hcs : c.sub = s
      · rw [if_pos hcs, if_pos hcs]
        exact ih acc
      · rw [if_neg hcs, if_neg hcs, hrec c]
        cases recur' c with
        | none => rfl
        | some r =>
          cases r with
          | error e => exact ih acc
          | ok t => exact ih (acc ++ [t])

/-- Listed subordinates that resolve to the node's own subject are
skipped: processing a listing is the same as processing the listing with
the node's own id removed (for a well-formed world where the
configuration served at `u` has `sub = u`). -/
theorem discoverGo_filter_self (w : SubtreeWorld)
    (recur : FedEntity → Option (Except Unit FedTree)) (n : String)
    (hhon : ∀ p ∈ w.conf, p.2.sub = p.1) :
    ∀ (sids : List String) (acc : List FedTree),
      discoverGo w recur n sids acc =
        discoverGo w recur n (sids.filter (fun x => x ≠ n)) acc := by
  intro sids
  induction sids with
  | nil => intro acc; rfl
  | cons sid rest ih =>
    intro acc
    by_cases hsid : sid = n
    · subst hsid
      have hfe : (sid :: rest).filter (fun x => x ≠ sid) =
          rest.filter (fun x => x ≠ sid) := by
        simp [List.filter_cons]
      rw [hfe, discoverGo]
      cases hc : w.conf.lookup sid
      · dsimp only
        exact ih acc
      · dsimp only
        next c =>
        rw [if_pos (hhon (sid, c) (lookup_mem hc))]
        exact ih acc
    · have hfe : (sid :: rest).filter (fun x => x ≠ n) =
          sid :: rest.filter (fun x => x ≠ n) := by
        simp [List.filter_cons, hsid]
      rw [hfe, discoverGo, discoverGo]
      cases hc : w.conf.lookup sid
      · dsimp only
        exact ih acc
      · dsimp only
        next c =>
        by_cases hcs : c.sub = n
        · rw [if_pos hcs, if_pos hcs]
          exact ih acc
        · rw [if_neg hcs, if_neg hcs]
          cases recur c with
          | none => rfl
          | some r =>
            cases r with
            | error e => exact ih acc
            | ok t => exact ih (acc ++ [t])

/-- C8: in a well-formed world, a node that lists itself among its own
subordinates has that entry rejected and skipped, and the rest of the
subtree is discovered unaffected: discovery from any starting entity, at
any depth, gives the same result as in the world where the self entries
are removed from that node's listing. -/
theorem self_subordinate_skipped (w : SubtreeWorld) (n : String)
    (l : List String)
    (hhon : ∀ p ∈ w.conf, p.2.sub = p.1)
    (hl : w.lists.lookup n = some l) :
    ∀ (fuel : Nat) (e : FedEntity),
      discoverF w fuel e =
        discoverF (setList w n (l.filter (fun x => x ≠ n))) fuel e := by
  intro fuel
  induction fuel with
  | zero => intro e; rfl
  | succ m ih =>
    intro e
    rw [discoverF, discoverF]
    by_cases hmeta : e.hasMetadata = false
    · rw [if_pos hmeta, if_pos hmeta]
    · rw [if_neg hmeta, if_neg hmeta]
      by_cases hen : e.sub = n
      · have hl1 : w.lists.lookup e.sub = some l := hen ▸ hl
        have hl2 : (setList w n (l.filter (fun x => x ≠ n))).lists.lookup
            e.sub = some (l.filter (fun x => x ≠ n)) := by
          simp [setList, List.lookup, hen]
        rw [hl1, hl2]
        dsimp only
        have hstep : discoverGo w (fun c => discoverF w m c) e.sub l [] =
            discoverGo (setList w n (l.filter (fun x => x ≠ n)))
              (fun c => discoverF (setList w n (l.filter (fun x => x ≠ n)))
                m c) e.sub (l.filter (fun x => x ≠ n)) [] := by
          rw [hen, discoverGo_filter_self w _ n hhon l []]
          exact discoverGo_congr w (setList w n (l.filter (fun x => x ≠ n)))
            rfl _ _ (fun c => ih c) n _ []
        rw [hstep]
      · have hl2 : (setList w n (l.filter (fun x => x ≠ n))).lists.lookup
            e.sub = w.lists.lookup e.sub := by
          have : (e.sub == n) = false := beq_eq_false_iff_ne.mpr hen
          simp [setList, List.lookup, this]
        rw [hl2]
        cases hsubs : w.lists.lookup e.sub
        · rfl
        · dsimp only
          next subs =>
          rw [discoverGo_congr w (setList w n (l.filter (fun x => x ≠ n)))
            rfl _ _ (fun c => ih c) e.sub subs []]

/-- Witness for C8, scenario S6: the trust anchor's listing contains the
anchor itself; discovery equals discovery with that entry removed. -/
theorem self_subordinate_skipped_witness :
    discoverF wSelfList 5 fedTA =
      discoverF (setList wSelfList "https://ta.example"
        (["https://ta.example", "https://rp.example"].filter
          (fun x => x ≠ "https://ta.example"))) 5 fedTA :=
  self_subordinate_skipped wSelfList "https://ta.example"
    ["https://ta.example", "https://rp.example"] (by decide) (by decide)
    5 fedTA

/-! ### URL normalization (C7) -/

theorem rstrip_no_trailing (l : List Char) :
    (rstripSlash l).getLast? ≠ some '/' := by
  unfold rstripSlash
  rw [List.getLast?_reverse]
  have h := List.head?_dropWhile_not (fun c => c == '/') l.reverse
  cases hh : (l.reverse.dropWhile (fun c => c == '/')).head? with
  | none => simp
  | some x =>
    rw [hh] at h
    intro hc
    obtain rfl : x = '/' := by injection hc
    simp at h

theorem rstrip_of_no_trailing (l : List Char) (h : l.getLast? ≠ some '/') :
    rstripSlash l = l := by
  unfold rstripSlash
  cases hrev : l.reverse with
  | nil =>
    have hl : l = [] := List.reverse_eq_nil_iff.mp hrev
    subst hl
    rfl
  | cons x xs =>
    have hx : l.getLast? = some x := by
      rw [← List.head?_reverse, hrev]
      rfl
    have hxs : (x == '/') = false := by
      cases hb : x == '/'
      · rfl
      · exact absurd (hx.trans (by rw [eq_of_beq hb])) h
    simp only [List.dropWhile_cons, hxs, Bool.false_eq_true, if_false]
    rw [← hrev, List.reverse_reverse]

theorem rstripSlash_isPrefixOf (l : List Char) : rstripSlash l <+: l := by
  have h : (rstripSlash l).reverse <:+ l.reverse := by
    unfold rstripSlash
    rw [List.reverse_reverse]
    exact List.dropWhile_suffix _
  exact List.reverse_suffix.mp h

/-- Splitting `"//.well-known"` at a point whose right part begins
`"/.well-known/openid-federation"` leaves `"/"` or the whole pattern on
the left. -/
theorem dslash_split (a2 d2 t2 : List Char) (hsp : dslash = a2 ++ d2)
    (hwk : wkSuffix = d2 ++ t2) : a2 = ['/'] ∨ a2 = dslash := by
  have hlen : a2.length ≤ 13 := by
    have h13 : dslash.length = 13 := by decide
    have := congrArg List.length hsp
    rw [h13, List.length_append] at this
    omega
  have ha2 : a2 = dslash.take a2.length := by
    rw [hsp]
    exact (List.take_left a2 d2).symm
  have hd2 : d2 = dslash.drop a2.length := by
    rw [hsp]
    exact (List.drop_left a2 d2).symm
  have hpre : dslash.drop a2.length <+: wkSuffix := by
    rw [← hd2]
    exact ⟨t2, hwk.symm⟩
  set n := a2.length with hn
  interval_cases n
  · exact absurd hpre (by decide)
  · exact Or.inl (ha2.trans (by decide))
  · exact absurd hpre (by decide)
  · exact absurd hpre (by decide)
  · exact absurd hpre (by decide)
  · exact absurd hpre (by decide)
  · exact absurd hpre (by decide)
  · exact absurd hpre (by decide)
  · exact absurd hpre (by decide)
  · exact absurd hpre (by decide)
  · exact absurd hpre (by decide)
  · exact absurd hpre (by decide)
  · exact absurd hpre (by decide)
  · exact Or.inr (ha2.trans (by decide))

/-- C7 (counterexample): the paths `/path/` and `/path` have equal
slash-stripped normal forms, yet `URL.__eq__` compares them unequal —
equality is over the pydantic-parsed form, which preserves the trailing
slash of a non-empty path, not over the slash-stripped form. -/
theorem url_eq_not_normalized :
    urlPathEq "/path/".data "/path".data = false ∧
    remove_trailing_slashes "/path/".data =
      remove_trailing_slashes "/path".data := by
  refine ⟨by decide, by decide⟩

/-- C7 (amended): (i) normalization is idempotent:
`remove_trailing_slashes` twice equals once; (ii) URL equality is over
the pydantic-parsed path, which identifies exactly the empty path and
`"/"` (bare domain with and without trailing slash) and nothing else;
(iii) `well_known_url` appends the well-known suffix after stripping all
trailing slashes, so its output contains `"//.well-known"` only if the
input path already did. -/
theorem url_normalization_amended :
    (∀ p : List Char, remove_trailing_slashes (remove_trailing_slashes p) =
        remove_trailing_slashes p) ∧
    (∀ p q : List Char, urlPathEq p q = true ↔
        (p = q ∨ (p = [] ∧ q = ['/']) ∨ (p = ['/'] ∧ q = []))) ∧
    (∀ p : List Char, ¬ dslash <:+: p →
        ¬ dslash <:+: well_known_path p) := by
  refine ⟨?_, ?_, ?_⟩
  · intro p
    by_cases hq0 : remove_trailing_slashes p = []
    · rw [hq0]
      decide
    · have hfix : pydanticPath (remove_trailing_slashes p) =
          remove_trailing_slashes p := by
        unfold pydanticPath
        rw [if_neg hq0]
      show rstripSlash (pydanticPath (remove_trailing_slashes p)) =
        remove_trailing_slashes p
      rw [hfix]
      exact rstrip_of_no_trailing _ (rstrip_no_trailing (pydanticPath p))
  · intro p q
    unfold urlPathEq pydanticPath
    by_cases hp : p = [] <;> by_cases hq : q = [] <;>
      simp [hp, hq, beq_iff_eq] <;> aesop
  · intro p hp hcon
    have hq2 := rstrip_no_trailing (pydanticPath p)
    have hq1 : ¬ dslash <:+: rstripSlash (pydanticPath p) := by
      intro hx
      have h2 : dslash <:+: pydanticPath p :=
        hx.trans (rstripSlash_isPrefixOf (pydanticPath p)).isInfix
      unfold pydanticPath at h2
      by_cases hpe : p = []
      · rw [if_pos hpe] at h2
        exact absurd h2 (by decide)
      · rw [if_neg hpe] at h2
        exact hp h2
    obtain ⟨s, t, hst⟩ := hcon
    unfold well_known_path remove_trailing_slashes at hst
    have hst2 : s ++ (dslash ++ t) =
        rstripSlash (pydanticPath p) ++ wkSuffix := by
      rw [← hst, List.append_assoc]
    rcases List.append_eq_append_iff.mp hst2 with ⟨a2, ha2, hrest⟩ |
      ⟨c2, _, hrest⟩
    · rcases List.append_eq_append_iff.mp hrest with ⟨b2, hb2, _⟩ |
        ⟨d2, hd2, hwk⟩
      · exact hq1 ⟨s, b2, by rw [ha2, hb2, List.append_assoc]⟩
      · rcases dslash_split a2 d2 t hd2 hwk with hsl | hfull
        · exact hq2 (by rw [ha2, hsl, List.getLast?_concat])
        · exact hq1 ⟨s, [], by rw [ha2, hfull, List.append_nil]⟩
    · have : dslash <:+: wkSuffix := ⟨c2, t, by rw [hrest, List.append_assoc]⟩
      exact absurd this (by decide)

/-- Witness for C7 (amended) at concrete paths. -/
theorem url_normalization_amended_witness :
    remove_trailing_slashes (remove_trailing_slashes "/path//".data) =
      remove_trailing_slashes "/path//".data ∧
    urlPathEq [] ['/'] = true ∧
    ¬ dslash <:+: well_known_path "/a/b/".data :=
  ⟨url_normalization_amended.1 "/path//".data,
   (url_normalization_amended.2.1 [] ['/']).mpr (Or.inr (Or.inl ⟨rfl, rfl⟩)),
   url_normalization_amended.2.2 "/a/b/".data (by decide)⟩

end Ofcli
